import Mathlib

/-!
Verification of the input-processing core of a small interactive shell
(tokenizer, redirect splitter, redirection engine, builtins).

The Rust source is embedded shallowly:
  * `tokenize`, `push_next_arg` (src/lib.rs)     → `tokenize`, `push_next_arg`
  * `split_tokens` (src/lib.rs)                  → `splitTokens`
  * `redirect_and_append` (src/lib.rs),
    `redirect_to` / `append_to` (src/util.rs)    → `redirect_and_append`, …
  * `Command::cd`, `Command::replace_with_home_dir`,
    `Command::exit` (src/builtin.rs)             → `cd`, `replace_with_home_dir`, `exitCode`

Modelling conventions:
  * Rust `String` / `&str` are Lean `String`; `s.is_empty()` is written `s = ""`
    (same predicate on the underlying character list).
  * `char_indices` positions are modelled as character positions.  Every index
    comparison the code performs (`prev_end_quote_idx == next_start_idx - 1`)
    compares positions of one-byte characters (`'` `"` and position successors),
    so byte positions and character positions yield identical comparisons.
  * A Rust panic (the out-of-bounds `args[len - 1]` reachable in
    `push_next_arg`) is modelled by `Option`: `none` = panic.
  * Byte buffers (`Vec<u8>`) are modelled as `String`; the file system and the
    success of `File::create` / `write_all` / append-open are modelled by an
    explicit `World` / `Host` pair of oracles.
-/

/-- Rust `char::is_whitespace`: the Unicode White_Space property. -/
def rustIsWhitespace (c : Char) : Bool :=
  let n := c.toNat
  (9 ≤ n && n ≤ 13) || n = 32 || n = 0x85 || n = 0xA0 || n = 0x1680 ||
  (0x2000 ≤ n && n ≤ 0x200A) || n = 0x2028 || n = 0x2029 || n = 0x202F ||
  n = 0x205F || n = 0x3000

/-- Rust `str::trim`: strip leading and trailing whitespace characters. -/
def rustTrim (cs : List Char) : List Char :=
  ((cs.dropWhile rustIsWhitespace).reverse.dropWhile rustIsWhitespace).reverse

/-- The mutable scan state of `tokenize` (src/lib.rs lines 178-184). -/
structure TokState where
  tokens : List String
  next : String
  nextStart : Nat
  inSingle : Bool
  inDouble : Bool
  prevEndQuote : Option Nat
  escaped : Bool
deriving Repr, DecidableEq

/-- `push_next_arg` (src/lib.rs lines 274-301).  If the accumulated fragment is
non-empty and starts right after the previously closed quoted run, it is
appended onto the last token (`args[len - 1].push_str(..)`); with no previous
token that indexing panics, modelled as `none`.  The source compares
`peq_idx == next_arg_start_idx - 1`; it is written `p + 1 = next_start` here
because `next_start_idx` is at least 1 whenever `prev_end_quote_idx` is set (a
quote closed at some earlier index), so the two are equivalent. -/
def push_next_arg (args : List String) (next_arg : String) (next_start : Nat)
    (prev_end : Option Nat) : Option (List String × String) :=
  if next_arg = "" then
    some (args, next_arg)
  else
    match prev_end with
    | some p =>
      if p + 1 = next_start then
        match args.getLast? with
        | some last => some (args.dropLast ++ [last ++ next_arg], "")
        | none => none
      else some (args ++ [next_arg], "")
    | none => some (args ++ [next_arg], "")

/-- The characters whose escape is honored inside double quotes
(src/lib.rs line 243). -/
def escHonoredInDouble (c : Char) : Bool :=
  c == '\\' || c == '$' || c == '\n' || c == '"'

/-- One iteration of the `for (idx, ch) in input.char_indices()` loop of
`tokenize` (src/lib.rs lines 186-259), match arms in source order. -/
def tokStep (s : TokState) (idx : Nat) (c : Char) : Option TokState :=
  if c == '"' && !s.inSingle && !s.escaped then
    if !s.inDouble then
      some { s with inDouble := true, nextStart := idx }
    else
      match push_next_arg s.tokens s.next s.nextStart s.prevEndQuote with
      | none => none
      | some (toks, nx) =>
        some { s with inDouble := false, tokens := toks, next := nx,
                      prevEndQuote := some idx, nextStart := idx + 1 }
  else if c == '\'' && !s.inDouble && !s.escaped then
    if !s.inSingle then
      some { s with inSingle := true, nextStart := idx }
    else
      match push_next_arg s.tokens s.next s.nextStart s.prevEndQuote with
      | none => none
      | some (toks, nx) =>
        some { s with inSingle := false, tokens := toks, next := nx,
                      prevEndQuote := some idx, nextStart := idx + 1 }
  else if rustIsWhitespace c && !s.escaped then
    if s.inSingle || s.inDouble then
      some { s with next := s.next.push c }
    else
      match push_next_arg s.tokens s.next s.nextStart s.prevEndQuote with
      | none => none
      | some (toks, nx) =>
        some { s with tokens := toks, next := nx, nextStart := idx + 1 }
  else if c == '\\' && !s.escaped && !s.inSingle then
    some { s with escaped := true }
  else if s.escaped && s.inDouble then
    some { s with escaped := false,
                  next := if escHonoredInDouble c then s.next.push c
                          else (s.next.push '\\').push c }
  else
    some { s with escaped := false, next := s.next.push c }

/-- Run the scan loop of `tokenize` from a given state and character position. -/
def tokenizeFrom (s : TokState) (idx : Nat) : List Char → Option TokState
  | [] => some s
  | c :: cs =>
    match tokStep s idx c with
    | none => none
    | some s' => tokenizeFrom s' (idx + 1) cs

/-- Result of `tokenize`: `Ok(tokens)`, `Err(msg)`, or a Rust panic. -/
inductive TokResult where
  | ok (tokens : List String)
  | lexError (msg : String)
  | panicked
deriving Repr, DecidableEq

def initTokState : TokState :=
  { tokens := [], next := "", nextStart := 0, inSingle := false,
    inDouble := false, prevEndQuote := none, escaped := false }

/-- The tail of `tokenize` after the scan loop (src/lib.rs lines 261-271):
unterminated-quote check, then the final `push_next_arg`. -/
def tokenizeEnd (s : TokState) : TokResult :=
  if s.inSingle || s.inDouble then .lexError "quotes unfinished"
  else
    match push_next_arg s.tokens s.next s.nextStart s.prevEndQuote with
    | none => .panicked
    | some (toks, _) => .ok toks

/-- `tokenize` (src/lib.rs lines 176-272). -/
def tokenize (input : String) : TokResult :=
  match tokenizeFrom initTokState 0 (rustTrim input.data) with
  | none => .panicked
  | some s => tokenizeEnd s

/-- The pure quote-tracking projection of the scan state: the `in_single_quotes`,
`in_double_quotes` and `escaped` booleans of `tokenize`, used to express the
condition "the input ends while still inside a quote". -/
structure QuoteScan where
  inSingle : Bool
  inDouble : Bool
  escaped : Bool
deriving Repr, DecidableEq

/-- How one character updates the quote flags, mirroring the guard structure of
the `tokenize` loop. -/
def quoteScanStep (q : QuoteScan) (c : Char) : QuoteScan :=
  if c == '"' && !q.inSingle && !q.escaped then { q with inDouble := !q.inDouble }
  else if c == '\'' && !q.inDouble && !q.escaped then { q with inSingle := !q.inSingle }
  else if rustIsWhitespace c && !q.escaped then q
  else if c == '\\' && !q.escaped && !q.inSingle then { q with escaped := true }
  else { q with escaped := false }

/-- An input has balanced quotes when the scan of its trimmed characters ends
with both quote flags cleared. -/
def balancedQuotes (input : String) : Bool :=
  let q := (rustTrim input.data).foldl quoteScanStep ⟨false, false, false⟩
  !q.inSingle && !q.inDouble

/-- The `Split` struct (src/lib.rs lines 110-116). -/
structure Split where
  cmd_args : List String
  outs : List String
  append_outs : List String
  errs : List String
  append_errs : List String
deriving Repr, DecidableEq

def emptySplit : Split := ⟨[], [], [], [], []⟩

/-- The `Redirect` enum (src/lib.rs lines 130-135). -/
inductive Redirect where
  | out
  | appendOut
  | err
  | appendErr
deriving Repr, DecidableEq

/-- Whether a token textually equals one of the six operator spellings
(the `"1>" | ">" | "1>>" | ">>" | "2>" | "2>>"` match pattern). -/
def isOpToken (t : String) : Bool :=
  t == "1>" || t == ">" || t == "1>>" || t == ">>" || t == "2>" || t == "2>>"

/-- The redirect kind denoted by an operator token (second match of
`split_tokens`, src/lib.rs lines 153-157). -/
def opRedirect (t : String) : Option Redirect :=
  if t == "1>" || t == ">" then some .out
  else if t == "1>>" || t == ">>" then some .appendOut
  else if t == "2>" then some .err
  else if t == "2>>" then some .appendErr
  else none

/-- Push a non-operator token into the sequence selected by the pending
redirect (src/lib.rs lines 158-169). -/
def Split.push (s : Split) (r : Option Redirect) (t : String) : Split :=
  match r with
  | none => { s with cmd_args := s.cmd_args ++ [t] }
  | some .out => { s with outs := s.outs ++ [t] }
  | some .appendOut => { s with append_outs := s.append_outs ++ [t] }
  | some .err => { s with errs := s.errs ++ [t] }
  | some .appendErr => { s with append_errs := s.append_errs ++ [t] }

/-- The token loop of `split_tokens` (src/lib.rs lines 141-171). -/
def splitLoop : List String → Split → Option Redirect → Except String Split
  | [], s, _ => .ok s
  | t :: ts, s, r =>
    if isOpToken t && r.isSome then .error ("parse error near " ++ t)
    else
      match opRedirect t with
      | some rd => splitLoop ts s (some rd)
      | none => splitLoop ts (s.push r t) none

/-- `split_tokens` (src/lib.rs lines 137-174). -/
def splitTokens (tokens : List String) : Except String Split :=
  splitLoop tokens emptySplit none

/-- An entry written to one of the real terminal streams: either a raw byte
buffer (`write_all`) or a diagnostic line (`write_and_flush_str`). -/
inductive StreamEntry where
  | bytes (s : String)
  | msg (s : String)
deriving Repr, DecidableEq

/-- The file system plus the two real terminal streams. -/
structure World where
  fs : String → Option String
  realOut : List StreamEntry
  realErr : List StreamEntry

/-- Host oracles for the fallible file operations: `File::create`, `write_all`
after a successful open, and the create-or-append `OpenOptions` open. -/
structure Host where
  canCreate : String → Bool
  canWrite : String → Bool
  canOpenAppend : String → Bool

def setFile (fs : String → Option String) (p v : String) : String → Option String :=
  fun q => if q = p then some v else fs q

/-- One iteration of `util::redirect_to` (src/util.rs lines 40-56):
create-or-truncate the target, write the whole buffer, report any failure to
the real standard error and keep going. -/
def redirectStep (h : Host) (buf : String) (w : World) (r : String) : World :=
  if h.canCreate r then
    if h.canWrite r then
      { w with fs := setFile w.fs r buf }
    else
      { w with fs := setFile w.fs r "",
               realErr := w.realErr ++ [.msg ("failed to write to file " ++ r)] }
  else
    { w with realErr := w.realErr ++ [.msg ("failed to create file " ++ r)] }

/-- `util::redirect_to` (src/util.rs lines 39-59). -/
def redirect_to (h : Host) (w : World) (redirects : List String) (buf : String) : World :=
  redirects.foldl (redirectStep h buf) w

/-- One iteration of `util::append_to` (src/util.rs lines 62-82): open in
create-or-append mode (creating an empty file when absent), append the buffer,
report any failure to the real standard error and keep going. -/
def appendStep (h : Host) (buf : String) (w : World) (a : String) : World :=
  if h.canOpenAppend a then
    if h.canWrite a then
      { w with fs := setFile w.fs a (((w.fs a).getD "") ++ buf) }
    else
      { w with fs := setFile w.fs a ((w.fs a).getD ""),
               realErr := w.realErr ++ [.msg ("failed to append to file " ++ a)] }
  else
    { w with realErr := w.realErr ++ [.msg ("failed to open file " ++ a)] }

/-- `util::append_to` (src/util.rs lines 61-85). -/
def append_to (h : Host) (w : World) (appends : List String) (buf : String) : World :=
  appends.foldl (appendStep h buf) w

/-- `redirect_and_append` (src/lib.rs lines 83-108): fan the captured output
buffer out to the stdout redirect targets, or pass it through to the real
stdout when there are none; then the same for the error side. -/
def redirect_and_append (h : Host) (w : World) (split : Split)
    (out_buf err_buf : String) : World :=
  let w1 := if split.outs.length > 0 then redirect_to h w split.outs out_buf else w
  let w2 := if split.append_outs.length > 0 then append_to h w1 split.append_outs out_buf
            else w1
  let w3 := if split.outs.length = 0 && split.append_outs.length = 0 then
              { w2 with realOut := w2.realOut ++ [.bytes out_buf] }
            else w2
  let w4 := if split.errs.length > 0 then redirect_to h w3 split.errs err_buf else w3
  let w5 := if split.append_errs.length > 0 then append_to h w4 split.append_errs err_buf
            else w4
  if split.errs.length = 0 && split.append_errs.length = 0 then
    { w5 with realErr := w5.realErr ++ [.bytes err_buf] }
  else w5

/-- The guard-free composition equal to `redirect_and_append`: running
`redirect_to` / `append_to` on an empty target list is a no-op, so the
`len() > 0` guards of the source change nothing. -/
def raaCore (h : Host) (w : World) (split : Split) (out_buf err_buf : String) : World :=
  let w1 := redirect_to h w split.outs out_buf
  let w2 := append_to h w1 split.append_outs out_buf
  let w3 := if split.outs.length = 0 && split.append_outs.length = 0 then
              { w2 with realOut := w2.realOut ++ [.bytes out_buf] }
            else w2
  let w4 := redirect_to h w3 split.errs err_buf
  let w5 := append_to h w4 split.append_errs err_buf
  if split.errs.length = 0 && split.append_errs.length = 0 then
    { w5 with realErr := w5.realErr ++ [.bytes err_buf] }
  else w5

/-- `Command::home_dir` (src/builtin.rs lines 230-235): the HOME environment
value, or the empty string when unset. -/
def home_dir (home : Option String) : String := home.getD ""

/-- Rust `str::split_once` on the underlying character list. -/
def splitOnceList (c : Char) : List Char → Option (List Char × List Char)
  | [] => none
  | x :: xs =>
    if x = c then some ([], xs)
    else (splitOnceList c xs).map fun ab => (x :: ab.1, ab.2)

/-- Rust `str::split_once`: split at the first occurrence of the delimiter. -/
def splitOnce (s : String) (c : Char) : Option (String × String) :=
  (splitOnceList c s.data).map fun ab => (⟨ab.1⟩, ⟨ab.2⟩)

/-- `Command::replace_with_home_dir` (src/builtin.rs lines 237-255). -/
def replace_with_home_dir (home : Option String) (path : String) : String :=
  match splitOnce path '/' with
  | some (a, b) => if a = "~" then home_dir home ++ "/" ++ b else path
  | none => if path = "~" then home_dir home else path

/-- The path shapes for which the claims say a leading `~` is expanded:
the argument is exactly `~`, or its first path segment is exactly `~`. -/
def startsWithTildeSlash (p : String) : Bool :=
  p.data.take 2 == ['~', '/']

/-- The observable outcome of `Command::cd`: lines written to the sink's normal
output, lines written to the sink's error output, and the path passed to
`env::set_current_dir` (if any). -/
structure CdResult where
  out : List String
  err : List String
  attempted : Option String
deriving Repr, DecidableEq

/-- `Command::cd` (src/builtin.rs lines 137-158); `chdirOk` is the host oracle
for `env::set_current_dir` succeeding. -/
def cd (home : Option String) (chdirOk : String → Bool) (args : List String) : CdResult :=
  match args with
  | [] => ⟨[], [], none⟩
  | [p] =>
    let dir := replace_with_home_dir home p
    if chdirOk dir then ⟨[], [], some dir⟩
    else ⟨["cd: " ++ dir ++ ": No such file or directory"], [], some dir⟩
  | _ => ⟨[], ["cd: too many arguments"], none⟩

/-- Rust `str::parse::<i32>`: an optional sign followed by one or more ASCII
digits, with the value required to fit in a 32-bit signed integer. -/
def parseI32 (s : String) : Option Int :=
  let digitsVal : List Char → Option Nat := fun cs =>
    if cs ≠ [] && cs.all (fun c => '0' ≤ c && c ≤ '9') then
      some (cs.foldl (fun n c => n * 10 + (c.toNat - '0'.toNat)) 0)
    else none
  match s.data with
  | '+' :: rest => (digitsVal rest).bind fun n =>
      if n ≤ 2147483647 then some (n : Int) else none
  | '-' :: rest => (digitsVal rest).bind fun n =>
      if n ≤ 2147483648 then some (-(n : Int)) else none
  | cs => (digitsVal cs).bind fun n =>
      if n ≤ 2147483647 then some (n : Int) else none

/-- The exit code computed by `Command::exit` (src/builtin.rs lines 78-92):
`args.first()` parsed as an `i32`, any missing or unparsable argument
defaulting to 0. -/
def exitCode (args : List String) : Int :=
  match args.head? with
  | some arg => (parseI32 arg).getD 0
  | none => 0

/-- The `Command` enum (src/builtin.rs lines 12-31). -/
inductive Command where
  | exit
  | echo
  | typeCmd
  | pwd
  | cd
  | executable (name : String)
deriving Repr, DecidableEq

/-- `Command::parse` (src/builtin.rs lines 49-56): exact, case-sensitive match
against the builtin spellings, anything else an external executable. -/
def Command.parse (command : String) : Command :=
  if command = "exit" then .exit
  else if command = "echo" then .echo
  else if command = "type" then .typeCmd
  else if command = "pwd" then .pwd
  else if command = "cd" then .cd
  else .executable command

/-- `args.join(" ")` (used by `Command::echo`) and the space-joining of the
round-trip property. -/
def joinWithSpaces : List String → String
  | [] => ""
  | a :: rest => rest.foldl (fun acc t => acc ++ " " ++ t) a

/-- Outcome of one REPL iteration from the split onward: either `process::exit`
ended the whole process with a code, leaving the world untouched, or the
iteration completed and the (possibly redirected) world results. -/
inductive LineResult where
  | terminated (code : Int) (w : World)
  | completed (w : World)

/-- One REPL iteration from a successful split onward (src/lib.rs lines 42-52):
resolve the command, execute it into the capture buffers, then redirect.
`Command::exit` calls `process::exit` from inside `execute`, so it terminates
before `redirect_and_append` can run.  `other` abstracts the buffers produced
by the environment-dependent commands (`type`, `pwd`, `cd`, externals); none of
them terminates the process. -/
def runSplitLine (other : String → List String → String × String) (h : Host)
    (w : World) (split : Split) : LineResult :=
  match split.cmd_args with
  | [] => .completed w
  | command :: args =>
    match Command.parse command with
    | .exit => .terminated (exitCode args) w
    | .echo =>
      .completed (redirect_and_append h w split (joinWithSpaces args ++ "\n") "")
    | _ =>
      let oe := other command args
      .completed (redirect_and_append h w split oe.1 oe.2)

/-- Two operator tokens back to back somewhere in the sequence — the exact
situation `split_tokens` rejects: an operator encountered while a pending
operator is already set. -/
def hasAdjOps : List String → Bool
  | [] => false
  | [_] => false
  | a :: b :: ts => (isOpToken a && isOpToken b) || hasAdjOps (b :: ts)

/-- Whether the first token of a sequence is an operator spelling. -/
def headIsOp : List String → Bool
  | [] => false
  | t :: _ => isOpToken t

/-- A character with no special meaning to the tokenizer: not whitespace, not a
quote of either kind, not a backslash. -/
def plainChar (c : Char) : Bool :=
  !rustIsWhitespace c && c != '"' && c != '\'' && c != '\\'

/-- A token of the "unquoted case" of the round-trip property: non-empty and
made only of plain characters. -/
def plainToken (t : String) : Bool :=
  t != "" && t.data.all plainChar

/-- The character sequence contributed by the tail of a space-joined token
list: a space before each further token. -/
def sepcat : List String → List Char
  | [] => []
  | t :: ts => ' ' :: t.data ++ sepcat ts

/-! ## Sanity checks against the test vectors of the repository -/

example : tokenize "script  shell  " = .ok ["script", "shell"] := by decide
example : tokenize "' script''shell'" = .ok [" scriptshell"] := by decide
example : tokenize "'script'shell" = .ok ["scriptshell"] := by decide
example : tokenize "\"quz  hello\"  \"bar\"" = .ok ["quz  hello", "bar"] := by decide
example : tokenize "\"'quz''hello'\"" = .ok ["'quz''hello'"] := by decide
example : tokenize "world\\ \\ \\ \\\\\\ \\ \\ script" = .ok ["world   \\   script"] := by decide
example : tokenize "\"hello\\\"insidequotes\"script\\\"" = .ok ["hello\"insidequotesscript\""] := by decide
example : tokenize "'abc" = .lexError "quotes unfinished" := by decide
example : splitTokens ["echo", "hello", "world"] =
    .ok ⟨["echo", "hello", "world"], [], [], [], []⟩ := rfl
example : splitTokens ["echo", "thisistest", ">", "/tmp/data", ">", "./a/b"] =
    .ok ⟨["echo", "thisistest"], ["/tmp/data", "./a/b"], [], [], []⟩ := rfl
example : splitTokens ["cat", "./something.txt", ">", "/tmp/data", ">>",
    "/tmp/extra_data", "2>", "./error.log", "2>>", "dump"] =
    .ok ⟨["cat", "./something.txt"], ["/tmp/data"], ["/tmp/extra_data"],
         ["./error.log"], ["dump"]⟩ := rfl
example : splitTokens ["echo", ">", ">>", "/tmp/a"] =
    .error "parse error near >>" := rfl
example : splitTokens ["echo", "hi", ">"] = .ok ⟨["echo", "hi"], [], [], [], []⟩ := rfl
example : replace_with_home_dir (some "/home/u") "~" = "/home/u" := by decide
example : replace_with_home_dir (some "/home/u") "~/docs" = "/home/u/docs" := by decide
example : replace_with_home_dir (some "/home/u") "~foo" = "~foo" := by decide
example : replace_with_home_dir none "~" = "" := by decide
example : exitCode ["42"] = 42 := by decide
example : exitCode ["-7", "x"] = -7 := by decide
example : exitCode ["4x"] = 0 := by decide
example : exitCode ["2147483648"] = 0 := by decide
example : exitCode [] = 0 := by decide

/-! ## Helper lemmas -/

theorem splitOnceList_eq {c : Char} : ∀ {cs a b : List Char},
    splitOnceList c cs = some (a, b) → cs = a ++ c :: b := by
  intro cs
  induction cs with
  | nil => intro a b h; simp [splitOnceList] at h
  | cons x xs ih =>
    intro a b h
    by_cases hx : x = c
    · rw [splitOnceList, if_pos hx] at h
      injection h with h2
      injection h2 with h3 h4
      subst h3
      subst h4
      rw [hx]
      rfl
    · rw [splitOnceList, if_neg hx] at h
      cases h' : splitOnceList c xs with
      | none => rw [h'] at h; simp at h
      | some ab =>
        obtain ⟨a', b'⟩ := ab
        rw [h'] at h
        simp at h
        obtain ⟨ha, hb⟩ := h
        subst ha
        subst hb
        simp [ih h']

/-! ## Claim theorems -/

/-- Claim C1: when a non-empty accumulated fragment reaches a token boundary
and the position immediately preceding the fragment's start is exactly the
index where the previous quoted run closed, the fragment is appended onto the
previous token instead of becoming a new token; in particular
`"foo""bar"`, `'foo''bar'` and `"foo"'bar'` each tokenize to `["foobar"]`. -/
theorem claim_C1_adjacency_merge :
    (∀ (args : List String) (a next_arg : String) (start p : Nat),
        next_arg ≠ "" → p + 1 = start →
        push_next_arg (args ++ [a]) next_arg start (some p) =
          some (args ++ [a ++ next_arg], "")) ∧
    tokenize "\"foo\"\"bar\"" = .ok ["foobar"] ∧
    tokenize "'foo''bar'" = .ok ["foobar"] ∧
    tokenize "\"foo\"'bar'" = .ok ["foobar"] := by
  refine ⟨?_, by decide, by decide, by decide⟩
  intro args a next_arg start p hne hadj
  simp [push_next_arg, hne, hadj]

/-- Witness for C1 at a concrete merge: fragment `"bar"` starting right after
the quote that closed token `"foo"` is glued onto it. -/
theorem claim_C1_witness :
    ("bar" : String) ≠ "" ∧ (4 : Nat) + 1 = 5 ∧
    push_next_arg ["foo"] "bar" 5 (some 4) = some (["foobar"], "") := by
  refine ⟨by decide, rfl, ?_⟩
  exact claim_C1_adjacency_merge.1 [] "foo" "bar" 5 4 (by decide) rfl

/-- Claim C4 (code bug): `tokenize` is claimed total and panic-free, but on the
input `''x` the adjacency merge indexes `args[len - 1]` with `args` empty (the
empty quoted run produced no token), a Rust panic. -/
theorem claim_C4_panic_on_empty_quote_merge : tokenize "''x" = .panicked := by decide

/-- Claim C3: escape semantics by context.  Outside any quote `\X` yields the
literal `X` with the backslash consumed; inside double quotes the backslash is
consumed only for `\`, `$`, newline and `"`, and is restored before any other
character; inside single quotes a backslash is a literal character and never
escapes. -/
theorem claim_C3_escape_semantics :
    (∀ (s : TokState) (idx : Nat), s.escaped = false → s.inSingle = false →
        tokStep s idx '\\' = some { s with escaped := true }) ∧
    (∀ (s : TokState) (idx : Nat) (c : Char), s.escaped = true → s.inSingle = false →
        s.inDouble = false →
        tokStep s idx c = some { s with escaped := false, next := s.next.push c }) ∧
    (∀ (s : TokState) (idx : Nat) (c : Char), s.escaped = true → s.inDouble = true →
        escHonoredInDouble c = true →
        tokStep s idx c = some { s with escaped := false, next := s.next.push c }) ∧
    (∀ (s : TokState) (idx : Nat) (c : Char), s.escaped = true → s.inDouble = true →
        escHonoredInDouble c = false →
        tokStep s idx c =
          some { s with escaped := false, next := (s.next.push '\\').push c }) ∧
    (∀ (s : TokState) (idx : Nat), s.inSingle = true → s.escaped = false →
        tokStep s idx '\\' =
          some { s with escaped := false, next := s.next.push '\\' }) := by
  have hbs : rustIsWhitespace '\\' = false := by decide
  refine ⟨?_, ?_, ?_, ?_, ?_⟩
  · intro s idx hesc hsq
    simp [tokStep, hesc, hsq, hbs]
  · intro s idx c hesc hsq hdq
    simp [tokStep, hesc, hsq, hdq]
  · intro s idx c hesc hdq hon
    simp [tokStep, hesc, hdq, hon]
  · intro s idx c hesc hdq hon
    simp [tokStep, hesc, hdq, hon]
  · intro s idx hsq hesc
    simp [tokStep, hesc, hsq, hbs]

/-- Witness for C3 at concrete scan states. -/
theorem claim_C3_witness :
    tokStep ⟨[], "a", 0, false, false, none, false⟩ 1 '\\' =
      some ⟨[], "a", 0, false, false, none, true⟩ ∧
    tokStep ⟨[], "a", 0, false, false, none, true⟩ 2 'x' =
      some ⟨[], "ax", 0, false, false, none, false⟩ ∧
    tokStep ⟨[], "a", 0, false, true, none, true⟩ 2 '$' =
      some ⟨[], "a$", 0, false, true, none, false⟩ ∧
    tokStep ⟨[], "a", 0, false, true, none, true⟩ 2 'n' =
      some ⟨[], "a\\n", 0, false, true, none, false⟩ ∧
    tokStep ⟨[], "a", 0, true, false, none, false⟩ 2 '\\' =
      some ⟨[], "a\\", 0, true, false, none, false⟩ := by
  refine ⟨?_, ?_, ?_, ?_, ?_⟩
  · exact claim_C3_escape_semantics.1 ⟨[], "a", 0, false, false, none, false⟩ 1 rfl rfl
  · exact claim_C3_escape_semantics.2.1 ⟨[], "a", 0, false, false, none, true⟩ 2 'x'
      rfl rfl rfl
  · exact claim_C3_escape_semantics.2.2.1 ⟨[], "a", 0, false, true, none, true⟩ 2 '$'
      rfl rfl (by decide)
  · exact claim_C3_escape_semantics.2.2.2.1 ⟨[], "a", 0, false, true, none, true⟩ 2 'n'
      rfl rfl (by decide)
  · exact claim_C3_escape_semantics.2.2.2.2 ⟨[], "a", 0, true, false, none, false⟩ 2
      rfl rfl

/-- Claim C9: `cd` with one argument expands a leading `~` only when `~` is the
entire first path segment, leaves `~foo`-style arguments untouched, attempts
the empty-string path when HOME is unset, and on chdir failure writes
`cd: <path>: No such file or directory` to the sink's normal output (the error
output stays empty). -/
theorem claim_C9_cd_home_expansion :
    (∀ (home : Option String) (p : String), p ≠ "~" → startsWithTildeSlash p = false →
        replace_with_home_dir home p = p) ∧
    (∀ home : Option String, replace_with_home_dir home "~" = home_dir home) ∧
    (∀ (home : Option String) (p : String), startsWithTildeSlash p = true →
        replace_with_home_dir home p = home_dir home ++ "/" ++ (⟨p.data.drop 2⟩ : String)) ∧
    (∀ chdirOk : String → Bool, (cd none chdirOk ["~"]).attempted = some "") ∧
    (∀ (home : Option String) (chdirOk : String → Bool) (p : String),
        chdirOk (replace_with_home_dir home p) = false →
        cd home chdirOk [p] =
          ⟨["cd: " ++ replace_with_home_dir home p ++ ": No such file or directory"],
           [], some (replace_with_home_dir home p)⟩) := by
  refine ⟨?_, ?_, ?_, ?_, ?_⟩
  · intro home p hne hts
    rw [replace_with_home_dir]
    cases h : splitOnce p '/' with
    | none => simp [hne]
    | some ab =>
      obtain ⟨a, b⟩ := ab
      have ha : a ≠ "~" := by
        intro haeq
        subst haeq
        obtain ⟨a0, b0, hs, ha0, hb0⟩ :
            ∃ a0 b0, splitOnceList '/' p.data = some (a0, b0) ∧
              (⟨a0⟩ : String) = "~" ∧ (⟨b0⟩ : String) = b := by
          unfold splitOnce at h
          cases hs : splitOnceList '/' p.data with
          | none => rw [hs] at h; simp at h
          | some ab0 =>
            obtain ⟨a0, b0⟩ := ab0
            rw [hs] at h
            simp at h
            exact ⟨a0, b0, rfl, h.1, h.2⟩
        have hdata : p.data = a0 ++ '/' :: b0 := splitOnceList_eq hs
        have ha0' : a0 = ['~'] := by
          have := congrArg String.data ha0
          simpa using this
        rw [ha0'] at hdata
        rw [startsWithTildeSlash, hdata] at hts
        simp at hts
      simp [ha]
  · intro home
    rfl
  · intro home p hts
    have hp : ∃ rest, p.data = '~' :: '/' :: rest := by
      rw [startsWithTildeSlash] at hts
      cases hd : p.data with
      | nil => rw [hd] at hts; simp at hts
      | cons c1 tl =>
        cases htl : tl with
        | nil => rw [hd, htl] at hts; simp at hts
        | cons c2 tl2 =>
          rw [hd, htl] at hts
          simp at hts
          exact ⟨tl2, by rw [hts.1, hts.2]⟩
    obtain ⟨rest, hrest⟩ := hp
    have hsplit : splitOnce p '/' = some ("~", ⟨rest⟩) := by
      unfold splitOnce
      rw [hrest]
      rw [splitOnceList, if_neg (by decide)]
      rw [splitOnceList, if_pos rfl]
      rfl
    rw [replace_with_home_dir, hsplit]
    simp [hrest]
  · intro chdirOk
    cases h : chdirOk "" <;> simp [cd, replace_with_home_dir, splitOnce, splitOnceList,
      home_dir, h]
  · intro home chdirOk p hfail
    simp [cd, hfail]

/-- Witness for C9 at concrete inputs. -/
theorem claim_C9_witness :
    replace_with_home_dir (some "/home/u") "~foo" = "~foo" ∧
    replace_with_home_dir (some "/home/u") "~" = "/home/u" ∧
    replace_with_home_dir (some "/home/u") "~/docs" = "/home/u/docs" ∧
    (cd none (fun _ => true) ["~"]).attempted = some "" ∧
    cd (some "/home/u") (fun _ => false) ["/nope"] =
      ⟨["cd: /nope: No such file or directory"], [], some "/nope"⟩ := by
  refine ⟨?_, ?_, ?_, ?_, ?_⟩
  · exact claim_C9_cd_home_expansion.1 (some "/home/u") "~foo" (by decide) (by decide)
  · exact claim_C9_cd_home_expansion.2.1 (some "/home/u")
  · have h := claim_C9_cd_home_expansion.2.2.1 (some "/home/u") "~/docs" (by decide)
    simpa using h
  · exact claim_C9_cd_home_expansion.2.2.2.1 (fun _ => true)
  · have h := claim_C9_cd_home_expansion.2.2.2.2 (some "/home/u") (fun _ => false)
      "/nope" (by decide)
    simpa using h

/-- Claim C10: the `exit` builtin parses its first argument as a signed 32-bit
integer, defaults to 0 when the argument is missing or unparsable, and
terminates the process before any redirection or buffered output of the
current line can happen (the world is returned untouched). -/
theorem claim_C10_exit :
    (∀ (a : String) (rest : List String) (n : Int), parseI32 a = some n →
        exitCode (a :: rest) = n) ∧
    (∀ (a : String) (rest : List String), parseI32 a = none →
        exitCode (a :: rest) = 0) ∧
    exitCode [] = 0 ∧
    (∀ (other : String → List String → String × String) (h : Host) (w : World)
        (split : Split) (args : List String), split.cmd_args = "exit" :: args →
        runSplitLine other h w split = .terminated (exitCode args) w) := by
  refine ⟨?_, ?_, rfl, ?_⟩
  · intro a rest n hp
    simp [exitCode, hp]
  · intro a rest hp
    simp [exitCode, hp]
  · intro other h w split args hargs
    rw [runSplitLine, hargs]
    rfl

/-- Witness for C10: `exit 5` with a pending stdout redirect terminates with
code 5 and the world (files, streams) is unchanged. -/
theorem claim_C10_witness :
    parseI32 "5" = some 5 ∧
    runSplitLine (fun _ _ => ("", "")) ⟨fun _ => true, fun _ => true, fun _ => true⟩
        ⟨fun _ => none, [], []⟩ ⟨["exit", "5"], ["f.txt"], [], [], []⟩ =
      .terminated 5 ⟨fun _ => none, [], []⟩ := by
  refine ⟨rfl, ?_⟩
  exact claim_C10_exit.2.2.2 (fun _ _ => ("", ""))
    ⟨fun _ => true, fun _ => true, fun _ => true⟩ ⟨fun _ => none, [], []⟩
    ⟨["exit", "5"], ["f.txt"], [], [], []⟩ ["5"] rfl

/-- Counterexample to C2 as stated: the input `''x` has balanced quotes yet
`tokenize` neither succeeds nor reports a lex error — it panics in the
adjacency merge. -/
theorem claim_C2_counterexample :
    balancedQuotes "''x" = true ∧ tokenize "''x" = .panicked := by
  exact ⟨by decide, by decide⟩

/-- Counterexample to C5 as stated: on `["echo", ">", "f"]` the split succeeds
but the operator token `>` appears in none of the five output sequences. -/
theorem claim_C5_counterexample :
    splitTokens ["echo", ">", "f"] = .ok ⟨["echo"], ["f"], [], [], []⟩ ∧
    ">" ∈ (["echo", ">", "f"] : List String) ∧
    ">" ∉ (["echo"] : List String) ∧ ">" ∉ (["f"] : List String) ∧
    ">" ∉ ([] : List String) := by
  refine ⟨rfl, by decide, by decide, by decide, by decide⟩

/-- Counterexample to C7 as stated: the token `"a b"` (producible by quoting)
splits successfully, but re-tokenizing the space-joined `cmd_args` splits it
into two tokens. -/
theorem claim_C7_counterexample :
    splitTokens ["a b"] = .ok ⟨["a b"], [], [], [], []⟩ ∧
    joinWithSpaces ["a b"] = "a b" ∧
    tokenize "a b" = .ok ["a", "b"] ∧
    (["a", "b"] : List String) ≠ ["a b"] := by
  refine ⟨rfl, rfl, by decide, by decide⟩

theorem tokStep_flags {s s' : TokState} {idx : Nat} {c : Char}
    (h : tokStep s idx c = some s') :
    (⟨s'.inSingle, s'.inDouble, s'.escaped⟩ : QuoteScan) =
      quoteScanStep ⟨s.inSingle, s.inDouble, s.escaped⟩ c := by
  obtain ⟨toks, nx, nst, is1, id1, peq, esc⟩ := s
  by_cases hc1 : c = '"' <;> by_cases hc2 : c = '\'' <;>
    by_cases hc3 : c = '\\' <;> by_cases hw : rustIsWhitespace c = true <;>
    cases is1 <;> cases id1 <;> cases esc <;>
    cases hp : push_next_arg toks nx nst peq <;>
    simp_all [tokStep, quoteScanStep] <;>
    (subst h; simp)

theorem tokenizeFrom_flags : ∀ (cs : List Char) (s s' : TokState) (idx : Nat),
    tokenizeFrom s idx cs = some s' →
    (⟨s'.inSingle, s'.inDouble, s'.escaped⟩ : QuoteScan) =
      cs.foldl quoteScanStep ⟨s.inSingle, s.inDouble, s.escaped⟩ := by
  intro cs
  induction cs with
  | nil =>
    intro s s' idx h
    rw [tokenizeFrom] at h
    cases h
    rfl
  | cons c cs ih =>
    intro s s' idx h
    rw [tokenizeFrom] at h
    cases hstep : tokStep s idx c with
    | none => rw [hstep] at h; exact Option.noConfusion h
    | some s1 =>
      rw [hstep] at h
      rw [List.foldl_cons, ← tokStep_flags hstep]
      exact ih s1 s' (idx + 1) h

/-- Claim C2 (amended): for every input on which `tokenize` does not hit the
adjacency-merge panic, it returns an error exactly when the input ends while
still inside an unclosed single or double quote; the error is the lex error
`quotes unfinished` and no tokens are returned. -/
theorem claim_C2_unterminated_quote (input : String)
    (hnp : tokenize input ≠ .panicked) :
    ((∃ msg, tokenize input = .lexError msg) ↔ balancedQuotes input = false) ∧
    (∀ msg, tokenize input = .lexError msg → msg = "quotes unfinished") := by
  cases hloop : tokenizeFrom initTokState 0 (rustTrim input.data) with
  | none =>
    exfalso
    apply hnp
    rw [tokenize, hloop]
  | some s =>
    have hun : tokenize input = tokenizeEnd s := by rw [tokenize, hloop]
    rw [hun] at hnp ⊢
    have hflags := tokenizeFrom_flags _ _ _ _ hloop
    have hbal : balancedQuotes input = (!s.inSingle && !s.inDouble) := by
      rw [balancedQuotes]
      have : (rustTrim input.data).foldl quoteScanStep ⟨false, false, false⟩ =
          ⟨s.inSingle, s.inDouble, s.escaped⟩ := by
        rw [hflags]
        rfl
      rw [this]
    simp only [tokenizeEnd] at hnp ⊢
    by_cases hq : (s.inSingle || s.inDouble) = true
    · rw [if_pos hq]
      constructor
      · constructor
        · intro _
          rw [hbal]
          rcases Bool.or_eq_true_iff.mp hq with h1 | h1 <;> simp [h1]
        · intro _
          exact ⟨"quotes unfinished", rfl⟩
      · intro msg hmsg
        injection hmsg with hm
        exact hm.symm
    · rw [if_neg hq]
      rw [if_neg hq] at hnp
      cases hpush : push_next_arg s.tokens s.next s.nextStart s.prevEndQuote with
      | none => rw [hpush] at hnp; exact absurd rfl hnp
      | some pr =>
        obtain ⟨toks, rest⟩ := pr
        constructor
        · constructor
          · intro ⟨msg, hmsg⟩
            simp at hmsg
          · intro hfalse
            rw [hbal] at hfalse
            simp at hq
            rw [hq.1, hq.2] at hfalse
            simp at hfalse
        · intro msg hmsg
          simp at hmsg

/-- Witness for C2 on the unterminated input `'abc` and the balanced input
`a b`. -/
theorem claim_C2_witness :
    tokenize "'abc" ≠ .panicked ∧ balancedQuotes "'abc" = false ∧
    tokenize "'abc" = .lexError "quotes unfinished" ∧
    tokenize "a b" ≠ .panicked ∧ balancedQuotes "a b" = true ∧
    ¬∃ msg, tokenize "a b" = .lexError msg := by
  refine ⟨by decide, by decide, ?_, by decide, by decide, ?_⟩
  · obtain ⟨msg, hmsg⟩ :=
      (claim_C2_unterminated_quote "'abc" (by decide)).1.mpr (by decide)
    rw [(claim_C2_unterminated_quote "'abc" (by decide)).2 msg hmsg] at hmsg
    exact hmsg
  · intro hex
    have := (claim_C2_unterminated_quote "a b" (by decide)).1.mp hex
    simp [show balancedQuotes "a b" = true from by decide] at this

theorem opRedirect_isSome (t : String) : (opRedirect t).isSome = isOpToken t := by
  rw [opRedirect, isOpToken]
  by_cases e1 : (t == "1>") = true <;> by_cases e2 : (t == ">") = true <;>
    by_cases e3 : (t == "1>>") = true <;> by_cases e4 : (t == ">>") = true <;>
    by_cases e5 : (t == "2>") = true <;> by_cases e6 : (t == "2>>") = true <;>
    simp [e1, e2, e3, e4, e5, e6]

theorem splitLoop_ok : ∀ (ts : List String) (s : Split) (r : Option Redirect)
    (s' : Split), splitLoop ts s r = .ok s' →
    ∃ c o ao e ae,
      s'.cmd_args = s.cmd_args ++ c ∧ s'.outs = s.outs ++ o ∧
      s'.append_outs = s.append_outs ++ ao ∧ s'.errs = s.errs ++ e ∧
      s'.append_errs = s.append_errs ++ ae ∧
      c.Sublist ts ∧ o.Sublist ts ∧ ao.Sublist ts ∧ e.Sublist ts ∧ ae.Sublist ts ∧
      ((c : Multiset String) + o + ao + e + ae =
        ((ts.filter fun t => !isOpToken t : List String) : Multiset String)) := by
  intro ts
  induction ts with
  | nil =>
    intro s r s' h
    rw [splitLoop] at h
    injection h with h1
    subst h1
    exact ⟨[], [], [], [], [], by simp, by simp, by simp, by simp, by simp,
      by simp, by simp, by simp, by simp, by simp, by simp⟩
  | cons t ts ih =>
    intro s r s' h
    rw [splitLoop] at h
    by_cases hguard : (isOpToken t && r.isSome) = true
    · rw [if_pos hguard] at h
      exact Except.noConfusion h
    · rw [if_neg hguard] at h
      cases hop : opRedirect t with
      | some rd =>
        rw [hop] at h
        obtain ⟨c, o, ao, e, ae, h1, h2, h3, h4, h5, hs1, hs2, hs3, hs4, hs5, hm⟩ :=
          ih s (some rd) s' h
        have hopt : isOpToken t = true := by rw [← opRedirect_isSome, hop]; rfl
        refine ⟨c, o, ao, e, ae, h1, h2, h3, h4, h5, hs1.cons t, hs2.cons t,
          hs3.cons t, hs4.cons t, hs5.cons t, ?_⟩
        rw [List.filter_cons_of_neg]
        · exact hm
        · simp [hopt]
      | none =>
        rw [hop] at h
        have hopf : isOpToken t = false := by rw [← opRedirect_isSome, hop]; rfl
        obtain ⟨c, o, ao, e, ae, h1, h2, h3, h4, h5, hs1, hs2, hs3, hs4, hs5, hm⟩ :=
          ih (s.push r t) none s' h
        cases r with
        | none =>
          simp [Split.push] at h1 h2 h3 h4 h5
          refine ⟨t :: c, o, ao, e, ae, by simp [h1], h2, h3, h4, h5,
            hs1.cons₂ t, hs2.cons t, hs3.cons t, hs4.cons t, hs5.cons t, ?_⟩
          rw [List.filter_cons_of_pos (by simp [hopf])]
          rw [← Multiset.cons_coe, ← Multiset.cons_coe]
          rw [Multiset.cons_add, Multiset.cons_add, Multiset.cons_add, Multiset.cons_add]
          rw [hm]
        | some rd =>
          cases rd with
          | out =>
            simp [Split.push] at h1 h2 h3 h4 h5
            refine ⟨c, t :: o, ao, e, ae, h1, by simp [h2], h3, h4, h5,
              hs1.cons t, hs2.cons₂ t, hs3.cons t, hs4.cons t, hs5.cons t, ?_⟩
            rw [List.filter_cons_of_pos (by simp [hopf])]
            rw [← Multiset.cons_coe, ← Multiset.cons_coe]
            rw [Multiset.add_cons, Multiset.cons_add, Multiset.cons_add, Multiset.cons_add]
            rw [hm]
          | appendOut =>
            simp [Split.push] at h1 h2 h3 h4 h5
            refine ⟨c, o, t :: ao, e, ae, h1, h2, by simp [h3], h4, h5,
              hs1.cons t, hs2.cons t, hs3.cons₂ t, hs4.cons t, hs5.cons t, ?_⟩
            rw [List.filter_cons_of_pos (by simp [hopf])]
            rw [← Multiset.cons_coe, ← Multiset.cons_coe]
            rw [Multiset.add_cons, Multiset.cons_add, Multiset.cons_add]
            rw [hm]
          | err =>
            simp [Split.push] at h1 h2 h3 h4 h5
            refine ⟨c, o, ao, t :: e, ae, h1, h2, h3, by simp [h4], h5,
              hs1.cons t, hs2.cons t, hs3.cons t, hs4.cons₂ t, hs5.cons t, ?_⟩
            rw [List.filter_cons_of_pos (by simp [hopf])]
            rw [← Multiset.cons_coe, ← Multiset.cons_coe]
            rw [Multiset.add_cons, Multiset.cons_add]
            rw [hm]
          | appendErr =>
            simp [Split.push] at h1 h2 h3 h4 h5
            refine ⟨c, o, ao, e, t :: ae, h1, h2, h3, h4, by simp [h5],
              hs1.cons t, hs2.cons t, hs3.cons t, hs4.cons t, hs5.cons₂ t, ?_⟩
            rw [List.filter_cons_of_pos (by simp [hopf])]
            rw [← Multiset.cons_coe, ← Multiset.cons_coe]
            rw [Multiset.add_cons]
            rw [hm]

/-- Claim C5 (amended): for every token sequence on which `split` succeeds,
every token that is not one of the six operator spellings appears in exactly
one of the five output sequences (counted with multiplicity), each output
sequence preserves the original relative order of the input (it is a sublist),
and operator tokens appear in none of the five sequences. -/
theorem claim_C5_partition (ts : List String) (sp : Split)
    (h : splitTokens ts = .ok sp) :
    (sp.cmd_args.Sublist ts ∧ sp.outs.Sublist ts ∧ sp.append_outs.Sublist ts ∧
     sp.errs.Sublist ts ∧ sp.append_errs.Sublist ts) ∧
    ((sp.cmd_args : Multiset String) + sp.outs + sp.append_outs + sp.errs +
        sp.append_errs =
      ((ts.filter fun t => !isOpToken t : List String) : Multiset String)) := by
  obtain ⟨c, o, ao, e, ae, h1, h2, h3, h4, h5, hs1, hs2, hs3, hs4, hs5, hm⟩ :=
    splitLoop_ok ts emptySplit none sp h
  simp [emptySplit] at h1 h2 h3 h4 h5
  rw [h1, h2, h3, h4, h5]
  exact ⟨⟨hs1, hs2, hs3, hs4, hs5⟩, hm⟩

/-- Witness for C5 on a concrete mixed token sequence. -/
theorem claim_C5_witness :
    (((["echo", "x"] : List String).Sublist ["echo", "x", ">", "f"] ∧
      (["f"] : List String).Sublist ["echo", "x", ">", "f"] ∧
      ([] : List String).Sublist ["echo", "x", ">", "f"] ∧
      ([] : List String).Sublist ["echo", "x", ">", "f"] ∧
      ([] : List String).Sublist ["echo", "x", ">", "f"]) ∧
     ((["echo", "x"] : List String) : Multiset String) + (["f"] : List String) +
        ([] : List String) + ([] : List String) + ([] : List String) =
       ((["echo", "x", ">", "f"].filter fun t => !isOpToken t : List String) :
         Multiset String)) :=
  claim_C5_partition ["echo", "x", ">", "f"] ⟨["echo", "x"], ["f"], [], [], []⟩ rfl

theorem splitLoop_error_iff : ∀ (ts : List String) (s : Split) (r : Option Redirect),
    (∃ m, splitLoop ts s r = .error m) ↔
      ((r.isSome && headIsOp ts) || hasAdjOps ts) = true := by
  intro ts
  induction ts with
  | nil =>
    intro s r
    rw [splitLoop]
    simp [headIsOp, hasAdjOps]
  | cons t ts ih =>
    intro s r
    rw [splitLoop]
    by_cases hg : (isOpToken t && r.isSome) = true
    · rw [if_pos hg]
      obtain ⟨hopt, hrs⟩ := Bool.and_eq_true_iff.mp hg
      simp [headIsOp, hopt, hrs]
    · rw [if_neg hg]
      cases hop : opRedirect t with
      | some rd =>
        have hopt : isOpToken t = true := by rw [← opRedirect_isSome, hop]; rfl
        have hrs : r.isSome = false := by
          cases hv : r.isSome
          · rfl
          · exact absurd (by rw [hopt, hv]; rfl) hg
        rw [ih]
        cases ts with
        | nil => simp [headIsOp, hasAdjOps, hrs]
        | cons b ts2 => simp [headIsOp, hasAdjOps, hrs, hopt]
      | none =>
        have hopf : isOpToken t = false := by rw [← opRedirect_isSome, hop]; rfl
        rw [ih]
        cases ts with
        | nil => simp [headIsOp, hasAdjOps, hopf]
        | cons b ts2 => simp [headIsOp, hasAdjOps, hopf]

theorem splitLoop_error_msg : ∀ (ts : List String) (s : Split) (r : Option Redirect)
    (m : String), splitLoop ts s r = .error m →
    ∃ t, t ∈ ts ∧ isOpToken t = true ∧ m = "parse error near " ++ t := by
  intro ts
  induction ts with
  | nil =>
    intro s r m h
    rw [splitLoop] at h
    exact Except.noConfusion h
  | cons t ts ih =>
    intro s r m h
    rw [splitLoop] at h
    by_cases hg : (isOpToken t && r.isSome) = true
    · rw [if_pos hg] at h
      injection h with hm
      exact ⟨t, List.mem_cons_self t ts, (Bool.and_eq_true_iff.mp hg).1, hm.symm⟩
    · rw [if_neg hg] at h
      cases hop : opRedirect t with
      | some rd =>
        rw [hop] at h
        obtain ⟨t', ht1, ht2, ht3⟩ := ih s (some rd) m h
        exact ⟨t', List.mem_cons_of_mem t ht1, ht2, ht3⟩
      | none =>
        rw [hop] at h
        obtain ⟨t', ht1, ht2, ht3⟩ := ih (s.push r t) none m h
        exact ⟨t', List.mem_cons_of_mem t ht1, ht2, ht3⟩

theorem splitLoop_trailing : ∀ (ts : List String) (s : Split) (r : Option Redirect)
    (s' : Split) (op : String), isOpToken op = true →
    splitLoop ts s r = .ok s' →
    (ts = [] → r = none) →
    (∀ t, ts.getLast? = some t → isOpToken t = false) →
    splitLoop (ts ++ [op]) s r = .ok s' := by
  intro ts
  induction ts with
  | nil =>
    intro s r s' op hop h hnil _
    rw [splitLoop] at h
    injection h with h1
    subst h1
    rw [hnil rfl]
    rw [List.nil_append, splitLoop]
    have : (isOpToken op && (none : Option Redirect).isSome) = false := by
      simp
    rw [this]
    simp only [Bool.false_eq_true, if_false]
    cases hoprd : opRedirect op with
    | none =>
      exfalso
      have := opRedirect_isSome op
      rw [hoprd, hop] at this
      exact Bool.noConfusion this
    | some rd => rfl
  | cons t ts ih =>
    intro s r s' op hop h hnil hlast
    rw [List.cons_append, splitLoop]
    rw [splitLoop] at h
    by_cases hg : (isOpToken t && r.isSome) = true
    · rw [if_pos hg] at h
      exact Except.noConfusion h
    · rw [if_neg hg] at h
      rw [if_neg hg]
      have hlast' : ∀ t', ts.getLast? = some t' → isOpToken t' = false := by
        intro t' ht'
        apply hlast
        cases ts with
        | nil => simp at ht'
        | cons b ts2 => rw [List.getLast?_cons_cons]; exact ht'
      cases hop' : opRedirect t with
      | some rd =>
        rw [hop'] at h
        have hts : ts ≠ [] := by
          intro hteq
          subst hteq
          have h1 : isOpToken t = false := hlast t (by simp)
          have h2 : isOpToken t = true := by rw [← opRedirect_isSome, hop']; rfl
          rw [h1] at h2
          exact Bool.noConfusion h2
        exact ih s (some rd) s' op hop h (fun hc => absurd hc hts) hlast'
      | none =>
        rw [hop'] at h
        exact ih (s.push r t) none s' op hop h (fun _ => rfl) hlast'

/-- Claim C6: `split` returns a parse error exactly when an operator token is
encountered while a pending operator is already set (two adjacent operator
tokens), the message is `parse error near <token>` for an operator token of
the input, and a trailing operator with no following token is silently
dropped: the result is identical to splitting without it. -/
theorem claim_C6_split_errors :
    (∀ ts : List String, (∃ m, splitTokens ts = .error m) ↔ hasAdjOps ts = true) ∧
    (∀ (ts : List String) (m : String), splitTokens ts = .error m →
        ∃ t, t ∈ ts ∧ isOpToken t = true ∧ m = "parse error near " ++ t) ∧
    (∀ (ts : List String) (op : String) (sp : Split), isOpToken op = true →
        splitTokens ts = .ok sp →
        (∀ t, ts.getLast? = some t → isOpToken t = false) →
        splitTokens (ts ++ [op]) = .ok sp) := by
  refine ⟨?_, ?_, ?_⟩
  · intro ts
    rw [splitTokens, splitLoop_error_iff]
    simp
  · intro ts m h
    exact splitLoop_error_msg ts emptySplit none m h
  · intro ts op sp hop h hlast
    exact splitLoop_trailing ts emptySplit none sp op hop h (fun _ => rfl) hlast

/-- Witness for C6: two adjacent operators error; a trailing operator is
dropped. -/
theorem claim_C6_witness :
    (∃ m, splitTokens [">", ">", "f"] = .error m) ∧
    splitTokens (["echo", "hi"] ++ [">"]) = .ok ⟨["echo", "hi"], [], [], [], []⟩ := by
  constructor
  · exact (claim_C6_split_errors.1 [">", ">", "f"]).mpr (by decide)
  · refine claim_C6_split_errors.2.2 ["echo", "hi"] ">" ⟨["echo", "hi"], [], [], [], []⟩
      (by decide) rfl ?_
    intro t ht
    simp at ht
    rw [← ht]
    decide

theorem mem_of_getLast?_eq {l : List Char} {a : Char} (h : l.getLast? = some a) :
    a ∈ l := by
  obtain ⟨hne, ha⟩ := List.mem_getLast?_eq_getLast (l := l) (x := a) (by simp [h])
  rw [ha]
  exact List.getLast_mem hne

theorem string_eq_empty_of_data {s : String} (h : s.data = []) : s = "" := by
  cases s
  simp_all

theorem tokStep_plain {s : TokState} {idx : Nat} {c : Char}
    (hc : plainChar c = true) (hesc : s.escaped = false) :
    tokStep s idx c = some { s with escaped := false, next := s.next.push c } := by
  rw [plainChar] at hc
  simp only [Bool.and_eq_true, bne_iff_ne, Bool.not_eq_true'] at hc
  obtain ⟨⟨⟨hw, h1⟩, h2⟩, h3⟩ := hc
  simp [tokStep, hesc, hw, h1, h2, h3]

theorem str_data_empty_append (l : List Char) : ("" : String).data ++ l = l := rfl

theorem str_mk_data (s : String) : (⟨s.data⟩ : String) = s := rfl

theorem tokenizeFrom_cons_some {s s1 : TokState} {idx : Nat} {c : Char}
    {cs : List Char} (h : tokStep s idx c = some s1) :
    tokenizeFrom s idx (c :: cs) = tokenizeFrom s1 (idx + 1) cs := by
  rw [tokenizeFrom, h]

theorem tokenizeFrom_plain_word : ∀ (w : List Char) (cs : List Char) (s : TokState)
    (idx : Nat), w.all plainChar = true → s.escaped = false →
    tokenizeFrom s idx (w ++ cs) =
      tokenizeFrom { s with next := ⟨s.next.data ++ w⟩ } (idx + w.length) cs := by
  intro w
  induction w with
  | nil =>
    intro cs s idx _ _
    simp
  | cons c w' ih =>
    intro cs s idx hall hesc
    simp only [List.all_cons, Bool.and_eq_true] at hall
    rw [List.cons_append, tokenizeFrom_cons_some (tokStep_plain hall.1 hesc)]
    rw [ih cs _ (idx + 1) hall.2 rfl]
    have hdata : (s.next.push c).data ++ w' = s.next.data ++ c :: w' := by
      simp [String.push]
    simp only [hdata]
    have hidx : idx + 1 + w'.length = idx + (w'.length + 1) := by omega
    rw [hidx, hesc]
    exact rfl

theorem tokStep_space_flush {s : TokState} {idx : Nat}
    (hns : ¬s.next = "") (hesc : s.escaped = false) (hsq : s.inSingle = false)
    (hdq : s.inDouble = false) (hpe : s.prevEndQuote = none) :
    tokStep s idx ' ' =
      some { s with tokens := s.tokens ++ [s.next], next := "",
                    nextStart := idx + 1 } := by
  simp [tokStep, hesc, hsq, hdq, hpe, push_next_arg, hns, rustIsWhitespace]

theorem tokenize_words : ∀ (rest : List String) (a : String) (toks : List String)
    (start idx : Nat), plainToken a = true → (∀ t ∈ rest, plainToken t = true) →
    ∃ s', tokenizeFrom ⟨toks, "", start, false, false, none, false⟩ idx
            (a.data ++ sepcat rest) = some s' ∧
          tokenizeEnd s' = .ok (toks ++ a :: rest) := by
  intro rest
  induction rest with
  | nil =>
    intro a toks start idx ha _
    rw [plainToken] at ha
    simp only [Bool.and_eq_true, bne_iff_ne] at ha
    refine ⟨⟨toks, a, start, false, false, none, false⟩, ?_, ?_⟩
    · rw [sepcat]
      rw [tokenizeFrom_plain_word a.data []
        ⟨toks, "", start, false, false, none, false⟩ idx ha.2 rfl]
      rfl
    · simp [tokenizeEnd, push_next_arg, ha.1]
  | cons b rest' ih =>
    intro a toks start idx ha hrest
    rw [plainToken] at ha
    simp only [Bool.and_eq_true, bne_iff_ne] at ha
    rw [sepcat]
    have hsplit : a.data ++ (' ' :: b.data ++ sepcat rest') =
        a.data ++ (' ' :: (b.data ++ sepcat rest')) := by simp
    rw [hsplit]
    rw [tokenizeFrom_plain_word a.data _
      ⟨toks, "", start, false, false, none, false⟩ idx ha.2 rfl]
    simp only [str_data_empty_append, str_mk_data]
    rw [tokenizeFrom_cons_some (tokStep_space_flush (by simpa using ha.1) rfl rfl rfl rfl)]
    obtain ⟨s', h1, h2⟩ := ih b (toks ++ [a]) (idx + a.data.length + 1)
      (idx + a.data.length + 1) (hrest b (by simp)) (fun t ht => hrest t (by simp [ht]))
    refine ⟨s', ?_, ?_⟩
    · simpa using h1
    · rw [h2]
      simp

theorem joinFold_data : ∀ (rest : List String) (acc : String),
    (rest.foldl (fun acc t => acc ++ " " ++ t) acc).data = acc.data ++ sepcat rest := by
  intro rest
  induction rest with
  | nil => intro acc; simp [sepcat]
  | cons t ts ih =>
    intro acc
    rw [List.foldl_cons, ih, sepcat]
    show (acc ++ " " ++ t).data ++ sepcat ts = acc.data ++ (' ' :: t.data ++ sepcat ts)
    have : (acc ++ " " ++ t).data = acc.data ++ [' '] ++ t.data := rfl
    rw [this]
    simp

theorem joinWithSpaces_data (a : String) (rest : List String) :
    (joinWithSpaces (a :: rest)).data = a.data ++ sepcat rest := by
  rw [joinWithSpaces, joinFold_data]

theorem rustTrim_eq_self {cs : List Char}
    (hh : ∀ c, cs.head? = some c → rustIsWhitespace c = false)
    (hl : ∀ c, cs.getLast? = some c → rustIsWhitespace c = false) :
    rustTrim cs = cs := by
  cases cs with
  | nil => rfl
  | cons c cs' =>
    rw [rustTrim, List.dropWhile_cons, if_neg (by simp [hh c rfl])]
    cases hrev : (c :: cs').reverse with
    | nil => exact absurd hrev (by simp)
    | cons x xs =>
      have hx : (c :: cs').getLast? = some x := by
        rw [← List.head?_reverse, hrev]
        rfl
      rw [List.dropWhile_cons, if_neg (by simp [hl x hx])]
      rw [← hrev, List.reverse_reverse]

theorem sepcat_ne_nil (b : String) (rest : List String) (hb : b.data ≠ []) :
    b.data ++ sepcat rest ≠ [] := by
  intro h
  rw [List.append_eq_nil] at h
  exact hb h.1

theorem word_last_plain : ∀ (rest : List String) (a : String), plainToken a = true →
    (∀ t ∈ rest, plainToken t = true) →
    ∀ c, (a.data ++ sepcat rest).getLast? = some c → plainChar c = true := by
  intro rest
  induction rest with
  | nil =>
    intro a ha _ c hc
    rw [sepcat, List.append_nil] at hc
    rw [plainToken] at ha
    simp only [Bool.and_eq_true, bne_iff_ne] at ha
    exact (List.all_eq_true.mp ha.2) c (mem_of_getLast?_eq hc)
  | cons b rest' ih =>
    intro a ha hrest c hc
    rw [plainToken] at ha
    have hbne : b.data ≠ [] := by
      have hb := hrest b (by simp)
      rw [plainToken] at hb
      simp only [Bool.and_eq_true, bne_iff_ne] at hb
      intro hd
      exact hb.1 (string_eq_empty_of_data hd)
    rw [sepcat] at hc
    rw [show a.data ++ (' ' :: b.data ++ sepcat rest') =
      a.data ++ ([' '] ++ (b.data ++ sepcat rest')) from by simp] at hc
    rw [List.getLast?_append_of_ne_nil _ (by simp [sepcat_ne_nil b rest' hbne])] at hc
    rw [List.getLast?_append_of_ne_nil _ (sepcat_ne_nil b rest' hbne)] at hc
    exact ih b (hrest b (by simp)) (fun t ht => hrest t (by simp [ht])) c hc

theorem tokenize_join_plain (args : List String)
    (hall : ∀ t ∈ args, plainToken t = true) :
    tokenize (joinWithSpaces args) = .ok args := by
  cases args with
  | nil => decide
  | cons a rest =>
    have ha := hall a (by simp)
    have hane : a.data ≠ [] := by
      rw [plainToken] at ha
      simp only [Bool.and_eq_true, bne_iff_ne] at ha
      intro hd
      exact ha.1 (string_eq_empty_of_data hd)
    have haplain : a.data.all plainChar = true := by
      rw [plainToken] at ha
      simp only [Bool.and_eq_true] at ha
      exact ha.2
    rw [tokenize, joinWithSpaces_data]
    rw [rustTrim_eq_self ?hh ?hl]
    case hh =>
      intro c hc
      rw [List.head?_append_of_ne_nil _ hane] at hc
      have hmem : c ∈ a.data := by
        cases hd : a.data with
        | nil => exact absurd hd hane
        | cons x xs =>
          rw [hd] at hc
          injection hc with hc1
          rw [hc1]
          exact List.mem_cons_self c xs
      have := (List.all_eq_true.mp haplain) c hmem
      rw [plainChar] at this
      simp only [Bool.and_eq_true, Bool.not_eq_true'] at this
      exact this.1.1.1
    case hl =>
      intro c hc
      have := word_last_plain rest a ha (fun t ht => hall t (by simp [ht])) c hc
      rw [plainChar] at this
      simp only [Bool.and_eq_true, Bool.not_eq_true'] at this
      exact this.1.1.1
    obtain ⟨s', h1, h2⟩ := tokenize_words rest a [] 0 0 ha
      (fun t ht => hall t (by simp [ht]))
    have hinit : initTokState = ⟨[], "", 0, false, false, none, false⟩ := rfl
    rw [hinit, h1]
    simpa using h2

/-- Claim C7 (amended): for every token sequence of non-empty tokens made only
of plain characters (no whitespace, quotes, or backslashes) on which `split`
succeeds, joining the resulting `cmd_args` with single spaces and running
`tokenize` on that string yields exactly the same `cmd_args` back. -/
theorem claim_C7_roundtrip (ts : List String) (sp : Split)
    (hplain : ∀ t ∈ ts, plainToken t = true) (h : splitTokens ts = .ok sp) :
    tokenize (joinWithSpaces sp.cmd_args) = .ok sp.cmd_args := by
  apply tokenize_join_plain
  intro t ht
  apply hplain
  obtain ⟨c, o, ao, e, ae, h1, _, _, _, _, hs1, _, _, _, _, _⟩ :=
    splitLoop_ok ts emptySplit none sp h
  simp [emptySplit] at h1
  rw [h1] at ht
  exact hs1.subset ht

/-- Witness for C7 on a concrete unquoted command line. -/
theorem claim_C7_witness :
    (∀ t ∈ (["echo", "hello", ">", "f"] : List String), plainToken t = true) ∧
    splitTokens ["echo", "hello", ">", "f"] =
      .ok ⟨["echo", "hello"], ["f"], [], [], []⟩ ∧
    tokenize (joinWithSpaces ["echo", "hello"]) = .ok ["echo", "hello"] := by
  refine ⟨by decide, rfl, ?_⟩
  exact claim_C7_roundtrip ["echo", "hello", ">", "f"]
    ⟨["echo", "hello"], ["f"], [], [], []⟩ (by decide) rfl

theorem redirectStep_realOut (h : Host) (buf : String) (w : World) (r : String) :
    (redirectStep h buf w r).realOut = w.realOut := by
  rw [redirectStep]
  split_ifs <;> rfl

theorem appendStep_realOut (h : Host) (buf : String) (w : World) (a : String) :
    (appendStep h buf w a).realOut = w.realOut := by
  rw [appendStep]
  split_ifs <;> rfl

theorem redirect_to_realOut (h : Host) (rs : List String) (buf : String) :
    ∀ w : World, (redirect_to h w rs buf).realOut = w.realOut := by
  induction rs with
  | nil => intro w; rfl
  | cons x rs ih =>
    intro w
    rw [redirect_to, List.foldl_cons]
    rw [show List.foldl (redirectStep h buf) (redirectStep h buf w x) rs =
      redirect_to h (redirectStep h buf w x) rs buf from rfl]
    rw [ih, redirectStep_realOut]

theorem append_to_realOut (h : Host) (as : List String) (buf : String) :
    ∀ w : World, (append_to h w as buf).realOut = w.realOut := by
  induction as with
  | nil => intro w; rfl
  | cons x as ih =>
    intro w
    rw [append_to, List.foldl_cons]
    rw [show List.foldl (appendStep h buf) (appendStep h buf w x) as =
      append_to h (appendStep h buf w x) as buf from rfl]
    rw [ih, appendStep_realOut]

theorem redirectStep_fs_of_ne (h : Host) (buf : String) (w : World) {x r : String}
    (hne : r ≠ x) : (redirectStep h buf w x).fs r = w.fs r := by
  rw [redirectStep]
  split_ifs <;> simp [setFile, hne]

theorem appendStep_fs_of_ne (h : Host) (buf : String) (w : World) {x r : String}
    (hne : r ≠ x) : (appendStep h buf w x).fs r = w.fs r := by
  rw [appendStep]
  split_ifs <;> simp [setFile, hne]

theorem redirect_to_fs_of_not_mem (h : Host) (rs : List String) (buf : String) :
    ∀ (w : World) (r : String), r ∉ rs → (redirect_to h w rs buf).fs r = w.fs r := by
  induction rs with
  | nil => intro w r _; rfl
  | cons x rs ih =>
    intro w r hr
    rw [redirect_to, List.foldl_cons]
    rw [show List.foldl (redirectStep h buf) (redirectStep h buf w x) rs =
      redirect_to h (redirectStep h buf w x) rs buf from rfl]
    rw [ih _ r (fun hm => hr (List.mem_cons_of_mem x hm))]
    exact redirectStep_fs_of_ne h buf w (fun he => hr (he ▸ List.mem_cons_self x rs))

theorem append_to_fs_of_not_mem (h : Host) (as : List String) (buf : String) :
    ∀ (w : World) (r : String), r ∉ as → (append_to h w as buf).fs r = w.fs r := by
  induction as with
  | nil => intro w r _; rfl
  | cons x as ih =>
    intro w r hr
    rw [append_to, List.foldl_cons]
    rw [show List.foldl (appendStep h buf) (appendStep h buf w x) as =
      append_to h (appendStep h buf w x) as buf from rfl]
    rw [ih _ r (fun hm => hr (List.mem_cons_of_mem x hm))]
    exact appendStep_fs_of_ne h buf w (fun he => hr (he ▸ List.mem_cons_self x as))

theorem redirect_to_fs_good {h : Host} {r : String} (hc : h.canCreate r = true)
    (hw : h.canWrite r = true) (rs : List String) (buf : String) :
    ∀ w : World, (r ∈ rs ∨ w.fs r = some buf) →
    (redirect_to h w rs buf).fs r = some buf := by
  induction rs with
  | nil =>
    intro w hor
    rcases hor with hm | hfs
    · simp at hm
    · exact hfs
  | cons x rs ih =>
    intro w hor
    rw [redirect_to, List.foldl_cons]
    rw [show List.foldl (redirectStep h buf) (redirectStep h buf w x) rs =
      redirect_to h (redirectStep h buf w x) rs buf from rfl]
    by_cases hx : r = x
    · subst hx
      apply ih
      right
      rw [redirectStep, if_pos hc, if_pos hw]
      simp [setFile]
    · apply ih
      rcases hor with hm | hfs
      · rcases List.mem_cons.mp hm with he | hm'
        · exact absurd he hx
        · exact Or.inl hm'
      · right
        rw [redirectStep_fs_of_ne h buf w hx]
        exact hfs

theorem redirectStep_realErr_mono (h : Host) (buf : String) (w : World) (x : String)
    {e : StreamEntry} (he : e ∈ w.realErr) : e ∈ (redirectStep h buf w x).realErr := by
  rw [redirectStep]
  split_ifs <;> simp [he]

theorem appendStep_realErr_mono (h : Host) (buf : String) (w : World) (x : String)
    {e : StreamEntry} (he : e ∈ w.realErr) : e ∈ (appendStep h buf w x).realErr := by
  rw [appendStep]
  split_ifs <;> simp [he]

theorem redirect_to_realErr_mono (h : Host) (rs : List String) (buf : String) :
    ∀ (w : World) (e : StreamEntry), e ∈ w.realErr →
    e ∈ (redirect_to h w rs buf).realErr := by
  induction rs with
  | nil => intro w e he; exact he
  | cons x rs ih =>
    intro w e he
    rw [redirect_to, List.foldl_cons]
    exact ih (redirectStep h buf w x) e (redirectStep_realErr_mono h buf w x he)

theorem append_to_realErr_mono (h : Host) (as : List String) (buf : String) :
    ∀ (w : World) (e : StreamEntry), e ∈ w.realErr →
    e ∈ (append_to h w as buf).realErr := by
  induction as with
  | nil => intro w e he; exact he
  | cons x as ih =>
    intro w e he
    rw [append_to, List.foldl_cons]
    exact ih (appendStep h buf w x) e (appendStep_realErr_mono h buf w x he)

theorem redirectStep_realErr_shape (h : Host) (buf : String) (w : World) (x : String)
    {e : StreamEntry} (he : e ∈ (redirectStep h buf w x).realErr) :
    e ∈ w.realErr ∨ ∃ m, e = .msg m := by
  rw [redirectStep] at he
  split_ifs at he <;> simp at he <;>
    first
      | exact Or.inl he
      | (rcases he with he | he
         · exact Or.inl he
         · exact Or.inr ⟨_, he⟩)

theorem appendStep_realErr_shape (h : Host) (buf : String) (w : World) (x : String)
    {e : StreamEntry} (he : e ∈ (appendStep h buf w x).realErr) :
    e ∈ w.realErr ∨ ∃ m, e = .msg m := by
  rw [appendStep] at he
  split_ifs at he <;> simp at he <;>
    first
      | exact Or.inl he
      | (rcases he with he | he
         · exact Or.inl he
         · exact Or.inr ⟨_, he⟩)

theorem redirect_to_realErr_shape (h : Host) (rs : List String) (buf : String) :
    ∀ (w : World) (e : StreamEntry), e ∈ (redirect_to h w rs buf).realErr →
    e ∈ w.realErr ∨ ∃ m, e = .msg m := by
  induction rs with
  | nil => intro w e he; exact Or.inl he
  | cons x rs ih =>
    intro w e he
    rw [redirect_to, List.foldl_cons] at he
    rcases ih (redirectStep h buf w x) e he with h1 | h1
    · exact redirectStep_realErr_shape h buf w x h1
    · exact Or.inr h1

theorem append_to_realErr_shape (h : Host) (as : List String) (buf : String) :
    ∀ (w : World) (e : StreamEntry), e ∈ (append_to h w as buf).realErr →
    e ∈ w.realErr ∨ ∃ m, e = .msg m := by
  induction as with
  | nil => intro w e he; exact Or.inl he
  | cons x as ih =>
    intro w e he
    rw [append_to, List.foldl_cons] at he
    rcases ih (appendStep h buf w x) e he with h1 | h1
    · exact appendStep_realErr_shape h buf w x h1
    · exact Or.inr h1

theorem redirect_to_create_fail (h : Host) (rs : List String) (buf : String) :
    ∀ (w : World) (r : String), h.canCreate r = false → r ∈ rs →
    StreamEntry.msg ("failed to create file " ++ r) ∈
      (redirect_to h w rs buf).realErr := by
  induction rs with
  | nil => intro w r _ hm; simp at hm
  | cons x rs ih =>
    intro w r hc hm
    rw [redirect_to, List.foldl_cons]
    rcases List.mem_cons.mp hm with he | hm'
    · subst he
      apply redirect_to_realErr_mono
      rw [redirectStep, if_neg (by simp [hc])]
      simp
    · exact ih (redirectStep h buf w x) r hc hm'

theorem redirect_to_write_fail (h : Host) (rs : List String) (buf : String) :
    ∀ (w : World) (r : String), h.canCreate r = true → h.canWrite r = false →
    r ∈ rs →
    StreamEntry.msg ("failed to write to file " ++ r) ∈
      (redirect_to h w rs buf).realErr := by
  induction rs with
  | nil => intro w r _ _ hm; simp at hm
  | cons x rs ih =>
    intro w r hc hw hm
    rw [redirect_to, List.foldl_cons]
    rcases List.mem_cons.mp hm with he | hm'
    · subst he
      apply redirect_to_realErr_mono
      rw [redirectStep, if_pos hc, if_neg (by simp [hw])]
      simp
    · exact ih (redirectStep h buf w x) r hc hw hm'

theorem append_to_open_fail (h : Host) (as : List String) (buf : String) :
    ∀ (w : World) (r : String), h.canOpenAppend r = false → r ∈ as →
    StreamEntry.msg ("failed to open file " ++ r) ∈
      (append_to h w as buf).realErr := by
  induction as with
  | nil => intro w r _ hm; simp at hm
  | cons x as ih =>
    intro w r ho hm
    rw [append_to, List.foldl_cons]
    rcases List.mem_cons.mp hm with he | hm'
    · subst he
      apply append_to_realErr_mono
      rw [appendStep, if_neg (by simp [ho])]
      simp
    · exact ih (appendStep h buf w x) r ho hm'

theorem append_to_fs_count_one (h : Host) (as : List String) (buf : String) :
    ∀ (w : World) (r : String), h.canOpenAppend r = true → h.canWrite r = true →
    as.count r = 1 →
    (append_to h w as buf).fs r = some (((w.fs r).getD "") ++ buf) := by
  induction as with
  | nil => intro w r _ _ hcount; simp at hcount
  | cons x as ih =>
    intro w r ho hw hcount
    rw [append_to, List.foldl_cons]
    rw [show List.foldl (appendStep h buf) (appendStep h buf w x) as =
      append_to h (appendStep h buf w x) as buf from rfl]
    by_cases hx : x = r
    · subst hx
      rw [List.count_cons_self] at hcount
      have hnot : x ∉ as := by
        rw [← List.count_eq_zero (a := x)]
        omega
      rw [append_to_fs_of_not_mem h as buf _ x hnot]
      rw [appendStep, if_pos ho, if_pos hw]
      simp [setFile]
    · rw [List.count_cons_of_ne (by exact fun he => hx he.symm)] at hcount
      rw [ih (appendStep h buf w x) r ho hw hcount]
      rw [appendStep_fs_of_ne h buf w (fun he => hx he.symm)]

theorem raa_eq_core (h : Host) (w : World) (sp : Split) (oB eB : String) :
    redirect_and_append h w sp oB eB = raaCore h w sp oB eB := by
  by_cases h1 : sp.outs = [] <;> by_cases h2 : sp.append_outs = [] <;>
    by_cases h3 : sp.errs = [] <;> by_cases h4 : sp.append_errs = [] <;>
    simp [redirect_and_append, raaCore, redirect_to, append_to,
      List.length_pos, h1, h2, h3, h4]

theorem realOut_set_realErr (w : World) (x : List StreamEntry) :
    ({ w with realErr := x } : World).realOut = w.realOut := rfl

theorem realErr_set_realOut (w : World) (x : List StreamEntry) :
    ({ w with realOut := x } : World).realErr = w.realErr := rfl

theorem redirect_to_setOut (h : Host) (rs : List String) (buf : String) :
    ∀ (w : World) (x : List StreamEntry),
    redirect_to h { w with realOut := x } rs buf =
      { redirect_to h w rs buf with realOut := x } := by
  induction rs with
  | nil => intro w x; rfl
  | cons y rs ih =>
    intro w x
    rw [redirect_to, List.foldl_cons]
    have hstep : redirectStep h buf { w with realOut := x } y =
        { redirectStep h buf w y with realOut := x } := by
      rw [redirectStep, redirectStep]
      split_ifs <;> rfl
    rw [hstep]
    exact ih (redirectStep h buf w y) x

theorem append_to_setOut (h : Host) (as : List String) (buf : String) :
    ∀ (w : World) (x : List StreamEntry),
    append_to h { w with realOut := x } as buf =
      { append_to h w as buf with realOut := x } := by
  induction as with
  | nil => intro w x; rfl
  | cons y as ih =>
    intro w x
    rw [append_to, List.foldl_cons]
    have hstep : appendStep h buf { w with realOut := x } y =
        { appendStep h buf w y with realOut := x } := by
      rw [appendStep, appendStep]
      split_ifs <;> rfl
    rw [hstep]
    exact ih (appendStep h buf w y) x

theorem raaCore_fs_eq (h : Host) (w : World) (sp : Split) (oB eB r : String) :
    (raaCore h w sp oB eB).fs r =
      (append_to h (redirect_to h (append_to h (redirect_to h w sp.outs oB)
        sp.append_outs oB) sp.errs eB) sp.append_errs eB).fs r := by
  simp only [raaCore]
  split
  · split
    · rw [redirect_to_setOut, append_to_setOut]
    · rfl
  · split
    · rw [redirect_to_setOut, append_to_setOut]
    · rfl

theorem raaCore_realOut (h : Host) (w : World) (sp : Split) (oB eB : String) :
    (raaCore h w sp oB eB).realOut =
      if sp.outs.length = 0 && sp.append_outs.length = 0 then
        w.realOut ++ [.bytes oB]
      else w.realOut := by
  simp only [raaCore]
  split
  · split
    · rw [redirect_to_setOut, append_to_setOut, realOut_set_realErr]
      rw [show ({ append_to h (redirect_to h (append_to h (redirect_to h w sp.outs oB)
        sp.append_outs oB) sp.errs eB) sp.append_errs eB with
        realOut := (append_to h (redirect_to h w sp.outs oB) sp.append_outs oB).realOut
          ++ [StreamEntry.bytes oB] } : World).realOut =
        (append_to h (redirect_to h w sp.outs oB) sp.append_outs oB).realOut
          ++ [StreamEntry.bytes oB] from rfl]
      rw [append_to_realOut, redirect_to_realOut]
    · rw [realOut_set_realErr, append_to_realOut, redirect_to_realOut,
        append_to_realOut, redirect_to_realOut]
  · split
    · rw [redirect_to_setOut, append_to_setOut]
      rw [show ({ append_to h (redirect_to h (append_to h (redirect_to h w sp.outs oB)
        sp.append_outs oB) sp.errs eB) sp.append_errs eB with
        realOut := (append_to h (redirect_to h w sp.outs oB) sp.append_outs oB).realOut
          ++ [StreamEntry.bytes oB] } : World).realOut =
        (append_to h (redirect_to h w sp.outs oB) sp.append_outs oB).realOut
          ++ [StreamEntry.bytes oB] from rfl]
      rw [append_to_realOut, redirect_to_realOut]
    · rw [append_to_realOut, redirect_to_realOut, append_to_realOut, redirect_to_realOut]

/-- Claim C8: the output side of redirection fans `out_buf` out to every
`outs` target (create/truncate) and every `append_outs` target (create-or-
append), a failure to create, open or write one target is reported to the real
error stream without preventing the writes to the other targets, and `out_buf`
reaches the real standard output exactly when both `outs` and `append_outs`
are empty; the error side behaves symmetrically and independently with
`err_buf`, `errs`, `append_errs` and the real standard error. -/
theorem claim_C8_redirection :
    (∀ (h : Host) (w : World) (sp : Split) (oB eB r : String),
        h.canCreate r = true → h.canWrite r = true → r ∈ sp.outs →
        r ∉ sp.append_outs → r ∉ sp.errs → r ∉ sp.append_errs →
        (redirect_and_append h w sp oB eB).fs r = some oB) ∧
    (∀ (h : Host) (w : World) (sp : Split) (oB eB r : String),
        h.canCreate r = false → r ∈ sp.outs →
        StreamEntry.msg ("failed to create file " ++ r) ∈
          (redirect_and_append h w sp oB eB).realErr) ∧
    (∀ (h : Host) (w : World) (sp : Split) (oB eB r : String),
        h.canCreate r = true → h.canWrite r = false → r ∈ sp.outs →
        StreamEntry.msg ("failed to write to file " ++ r) ∈
          (redirect_and_append h w sp oB eB).realErr) ∧
    (∀ (h : Host) (w : World) (sp : Split) (oB eB r : String),
        h.canOpenAppend r = true → h.canWrite r = true →
        sp.append_outs.count r = 1 → r ∉ sp.outs → r ∉ sp.errs →
        r ∉ sp.append_errs →
        (redirect_and_append h w sp oB eB).fs r =
          some (((w.fs r).getD "") ++ oB)) ∧
    (∀ (h : Host) (w : World) (sp : Split) (oB eB r : String),
        h.canOpenAppend r = false → r ∈ sp.append_outs →
        StreamEntry.msg ("failed to open file " ++ r) ∈
          (redirect_and_append h w sp oB eB).realErr) ∧
    (∀ (h : Host) (w : World) (sp : Split) (oB eB : String), w.realOut = [] →
        ((redirect_and_append h w sp oB eB).realOut = [.bytes oB] ↔
          (sp.outs = [] ∧ sp.append_outs = []))) ∧
    (∀ (h : Host) (w : World) (sp : Split) (oB eB r : String),
        h.canCreate r = true → h.canWrite r = true → r ∈ sp.errs →
        r ∉ sp.append_errs →
        (redirect_and_append h w sp oB eB).fs r = some eB) ∧
    (∀ (h : Host) (w : World) (sp : Split) (oB eB r : String),
        h.canCreate r = false → r ∈ sp.errs →
        StreamEntry.msg ("failed to create file " ++ r) ∈
          (redirect_and_append h w sp oB eB).realErr) ∧
    (∀ (h : Host) (w : World) (sp : Split) (oB eB : String), w.realErr = [] →
        (StreamEntry.bytes eB ∈ (redirect_and_append h w sp oB eB).realErr ↔
          (sp.errs = [] ∧ sp.append_errs = []))) := by
  refine ⟨?_, ?_, ?_, ?_, ?_, ?_, ?_, ?_, ?_⟩
  · intro h w sp oB eB r hc hw hm hnao hne hnae
    rw [raa_eq_core, raaCore_fs_eq]
    rw [append_to_fs_of_not_mem h _ eB _ r hnae,
        redirect_to_fs_of_not_mem h _ eB _ r hne,
        append_to_fs_of_not_mem h _ oB _ r hnao]
    exact redirect_to_fs_good hc hw _ oB w (Or.inl hm)
  · intro h w sp oB eB r hc hm
    rw [raa_eq_core]
    simp only [raaCore]
    have base := redirect_to_create_fail h sp.outs oB w r hc hm
    have s2 := append_to_realErr_mono h sp.append_outs oB _ _ base
    split
    · refine List.mem_append.mpr (Or.inl ?_)
      apply append_to_realErr_mono
      apply redirect_to_realErr_mono
      split
      · exact s2
      · exact s2
    · apply append_to_realErr_mono
      apply redirect_to_realErr_mono
      split
      · exact s2
      · exact s2
  · intro h w sp oB eB r hc hw hm
    rw [raa_eq_core]
    simp only [raaCore]
    have base := redirect_to_write_fail h sp.outs oB w r hc hw hm
    have s2 := append_to_realErr_mono h sp.append_outs oB _ _ base
    split
    · refine List.mem_append.mpr (Or.inl ?_)
      apply append_to_realErr_mono
      apply redirect_to_realErr_mono
      split
      · exact s2
      · exact s2
    · apply append_to_realErr_mono
      apply redirect_to_realErr_mono
      split
      · exact s2
      · exact s2
  · intro h w sp oB eB r ho hw hcount hno hne hnae
    rw [raa_eq_core, raaCore_fs_eq]
    rw [append_to_fs_of_not_mem h _ eB _ r hnae,
        redirect_to_fs_of_not_mem h _ eB _ r hne,
        append_to_fs_count_one h _ oB _ r ho hw hcount,
        redirect_to_fs_of_not_mem h _ oB _ r hno]
  · intro h w sp oB eB r ho hm
    rw [raa_eq_core]
    simp only [raaCore]
    have s2 := append_to_open_fail h sp.append_outs oB (redirect_to h w sp.outs oB)
      r ho hm
    split
    · refine List.mem_append.mpr (Or.inl ?_)
      apply append_to_realErr_mono
      apply redirect_to_realErr_mono
      split
      · exact s2
      · exact s2
    · apply append_to_realErr_mono
      apply redirect_to_realErr_mono
      split
      · exact s2
      · exact s2
  · intro h w sp oB eB hro
    rw [raa_eq_core, raaCore_realOut, hro]
    constructor
    · intro heq
      by_cases hcond : sp.outs = [] ∧ sp.append_outs = []
      · exact hcond
      · rw [if_neg (by simpa [List.length_eq_zero] using hcond)] at heq
        exact absurd heq (by simp)
    · intro hcond
      rw [if_pos (by simp [hcond.1, hcond.2])]
      simp
  · intro h w sp oB eB r hc hw hm hnae
    rw [raa_eq_core, raaCore_fs_eq]
    rw [append_to_fs_of_not_mem h _ eB _ r hnae]
    exact redirect_to_fs_good hc hw _ eB _ (Or.inl hm)
  · intro h w sp oB eB r hc hm
    rw [raa_eq_core]
    simp only [raaCore]
    split
    · refine List.mem_append.mpr (Or.inl ?_)
      apply append_to_realErr_mono
      exact redirect_to_create_fail h sp.errs eB _ r hc hm
    · apply append_to_realErr_mono
      exact redirect_to_create_fail h sp.errs eB _ r hc hm
  · intro h w sp oB eB hre
    constructor
    · intro hmem
      by_cases hcond : sp.errs = [] ∧ sp.append_errs = []
      · exact hcond
      · exfalso
        rw [raa_eq_core] at hmem
        simp only [raaCore] at hmem
        rw [if_neg (by simpa [List.length_eq_zero] using hcond)] at hmem
        have hshape := append_to_realErr_shape h sp.append_errs eB _ _ hmem
        rcases hshape with h1 | ⟨m, hm⟩
        · have hshape2 := redirect_to_realErr_shape h sp.errs eB _ _ h1
          rcases hshape2 with h2 | ⟨m, hm⟩
          · have hW3 : ∀ e : StreamEntry,
                e ∈ (if sp.outs.length = 0 && sp.append_outs.length = 0 then
                  { append_to h (redirect_to h w sp.outs oB) sp.append_outs oB with
                    realOut := (append_to h (redirect_to h w sp.outs oB)
                      sp.append_outs oB).realOut ++ [StreamEntry.bytes oB] }
                  else append_to h (redirect_to h w sp.outs oB)
                    sp.append_outs oB).realErr →
                e ∈ (append_to h (redirect_to h w sp.outs oB)
                  sp.append_outs oB).realErr := by
              intro e he
              split at he
              · exact he
              · exact he
            have h3 := hW3 _ h2
            have hshape3 := append_to_realErr_shape h sp.append_outs oB _ _ h3
            rcases hshape3 with h4 | ⟨m, hm⟩
            · have hshape4 := redirect_to_realErr_shape h sp.outs oB _ _ h4
              rcases hshape4 with h5 | ⟨m, hm⟩
              · rw [hre] at h5
                simp at h5
              · exact StreamEntry.noConfusion hm
            · exact StreamEntry.noConfusion hm
          · exact StreamEntry.noConfusion hm
        · exact StreamEntry.noConfusion hm
    · intro hcond
      rw [raa_eq_core]
      simp only [raaCore]
      rw [if_pos (by simp [hcond.1, hcond.2])]
      simp

/-- Witness for C8: a two-target stdout redirect where one target cannot be
created writes the buffer fully to the valid target, reports the failure, and
skips the real stdout; with no redirects the buffers pass through. -/
theorem claim_C8_witness :
    (redirect_and_append ⟨fun p => p != "bad", fun _ => true, fun _ => true⟩
        ⟨fun _ => none, [], []⟩ ⟨["echo"], ["good", "bad"], [], [], []⟩
        "data" "oops").fs "good" = some "data" ∧
    StreamEntry.msg ("failed to create file " ++ "bad") ∈
      (redirect_and_append ⟨fun p => p != "bad", fun _ => true, fun _ => true⟩
        ⟨fun _ => none, [], []⟩ ⟨["echo"], ["good", "bad"], [], [], []⟩
        "data" "oops").realErr ∧
    (redirect_and_append ⟨fun p => p != "bad", fun _ => true, fun _ => true⟩
        ⟨fun _ => none, [], []⟩ ⟨["echo"], [], [], [], []⟩
        "data" "oops").realOut = [.bytes "data"] ∧
    StreamEntry.bytes "oops" ∈
      (redirect_and_append ⟨fun p => p != "bad", fun _ => true, fun _ => true⟩
        ⟨fun _ => none, [], []⟩ ⟨["echo"], ["good", "bad"], [], [], []⟩
        "data" "oops").realErr := by
  refine ⟨?_, ?_, ?_, ?_⟩
  · exact claim_C8_redirection.1 _ _ _ "data" "oops" "good" (by decide) rfl
      (by decide) (by decide) (by decide) (by decide)
  · exact claim_C8_redirection.2.1 _ _ _ "data" "oops" "bad" (by decide) (by decide)
  · exact (claim_C8_redirection.2.2.2.2.2.1 _ _ _ "data" "oops" rfl).mpr ⟨rfl, rfl⟩
  · exact (claim_C8_redirection.2.2.2.2.2.2.2.2 _ _ _ "data" "oops" rfl).mpr ⟨rfl, rfl⟩
